import Mathlib

/-!
Shallow embedding of the HTTPRoute validation logic from
`apis/v1beta1/validation/httproute.go` (package `validation`).

The Go code is a pure function pipeline over the `gatewayv1b1` value types.
We transcribe the value types (keeping only the fields the validation
functions read; the remaining payload fields of `HTTPRouteFilter` are never
read by any function in the file) and the four functions
`validateHTTPHeaderModifier`, `validateHTTPHeaderMatches`,
`validateHTTPRouteFilters` and `ValidateHTTPRouteSpec`.

Two aspects of the Go runtime are made explicit:

* `ValidateParentRefs` lives outside this repository slice and is treated by
  the code as an opaque collaborator; we pass it as a function parameter.

* `validateHTTPHeaderMatches` iterates a Go map with `range`, whose visiting
  order is unspecified (Go randomizes it).  The map `counts` holds one entry
  per distinct lower-cased header name together with its multiplicity; we
  model the `range` order by an oracle `ord : List String → List String`
  applied to the list of distinct keys (in first-appearance order of the
  underlying list); theorems assume only that `ord` permutes its argument
  (`ValidOrd`), which is exactly what Go guarantees.

Header names in this API are ASCII tokens, so `strings.ToLower` and
`http.CanonicalHeaderKey` are modelled with ASCII case mapping, which
coincides with the Go functions on the header-name character set; a
character outside the token table makes `CanonicalHeaderKey` return its
argument unchanged, exactly as `textproto.CanonicalMIMEHeaderKey` does.
-/

/-- Field paths as built by `k8s.io/apimachinery`'s `field.Path`:
a root name, `Child` segments and `Index` segments. -/
inductive FieldPath where
  | newPath (root : String)
  | child (p : FieldPath) (seg : String)
  | index (p : FieldPath) (i : Nat)
deriving DecidableEq, Repr

/-- Values carried in `field.Invalid`'s `BadValue` slot by this code:
a string (canonical header key, `Remove` entry), a whole `HTTPHeader`
(`Add`/`Set` entries), or an `HTTPRouteFilterType` constant (the
redirect/rewrite conflict error). -/
inductive BadValue where
  | str (s : String)
  | header (name : String) (value : String)
  | filterType (t : String)
deriving DecidableEq, Repr

/-- One `field.Error` as produced by `field.Invalid(path, badValue, detail)`.
All errors produced by this file are of kind `Invalid`, so the kind tag is
omitted. -/
structure ValidationError where
  path : FieldPath
  badValue : BadValue
  detail : String
deriving DecidableEq, Repr

/-- `gatewayv1b1.HTTPHeader`: a name/value pair used in header-modifier
action lists. -/
structure HTTPHeader where
  Name : String
  Value : String
deriving DecidableEq, Repr

/-- `gatewayv1b1.HTTPHeaderFilter`: the three action lists of a
header-modifier filter. -/
structure HTTPHeaderFilter where
  Add : List HTTPHeader
  Set : List HTTPHeader
  Remove : List String
deriving DecidableEq, Repr

/-- `gatewayv1b1.HTTPRouteFilterType`: the closed set of filter type tags. -/
inductive HTTPRouteFilterType where
  | requestHeaderModifier
  | responseHeaderModifier
  | requestMirror
  | requestRedirect
  | urlRewrite
  | extensionRef
deriving DecidableEq, Repr

/-- `gatewayv1b1.HTTPRouteFilter`, restricted to the fields the validation
functions read: the `Type` tag (field `FilterType`, since `Type` is reserved in Lean) and the two header-modifier payload pointers
(Go `nil` becomes `none`).  The other payload pointers (`RequestRedirect`,
`URLRewrite`, `RequestMirror`, ...) are never dereferenced by the validation
code and are omitted from the embedding. -/
structure HTTPRouteFilter where
  FilterType : HTTPRouteFilterType
  RequestHeaderModifier : Option HTTPHeaderFilter := none
  ResponseHeaderModifier : Option HTTPHeaderFilter := none
deriving DecidableEq, Repr

/-- `gatewayv1b1.HTTPHeaderMatch`, restricted to the fields read by
validation (name and value; the match-type field is never read). -/
structure HTTPHeaderMatch where
  Name : String
  Value : String
deriving DecidableEq, Repr

/-- `gatewayv1b1.HTTPQueryParamMatch`. -/
structure HTTPQueryParamMatch where
  Name : String
  Value : String
deriving DecidableEq, Repr

/-- `gatewayv1b1.HTTPRouteMatch`, restricted to the list fields read by
validation. -/
structure HTTPRouteMatch where
  Headers : List HTTPHeaderMatch := []
  QueryParams : List HTTPQueryParamMatch := []
deriving DecidableEq, Repr

/-- `gatewayv1b1.HTTPBackendRef`, restricted to its filter list (the
backend object reference itself is never read by validation). -/
structure HTTPBackendRef where
  Filters : List HTTPRouteFilter := []
deriving DecidableEq, Repr

/-- `gatewayv1b1.HTTPRouteRule`, restricted to the fields read by
validation. -/
structure HTTPRouteRule where
  Matches : List HTTPRouteMatch := []
  Filters : List HTTPRouteFilter := []
  BackendRefs : List HTTPBackendRef := []
deriving DecidableEq, Repr

/-- A parent reference; `ValidateHTTPRouteSpec` passes these through to the
external `ValidateParentRefs` collaborator without reading them. -/
structure ParentRef where
  Name : String
deriving DecidableEq, Repr

/-- `gatewayv1b1.HTTPRouteSpec`, restricted to the fields read by
validation. -/
structure HTTPRouteSpec where
  ParentRefs : List ParentRef := []
  Rules : List HTTPRouteRule := []
deriving DecidableEq, Repr

/-- `gatewayv1b1.HTTPRoute` (only its `Spec` is read). -/
structure HTTPRoute where
  Spec : HTTPRouteSpec
deriving DecidableEq, Repr

/-- Go `strings.ToLower`, restricted to ASCII case mapping (header names in
this API are ASCII tokens, on which the two agree). -/
def goToLower (s : String) : String :=
  String.mk (s.data.map Char.toLower)

/-- Go `net/textproto`'s `validHeaderFieldByte`: letters, digits and the
token punctuation set (codepoints 33, 35, 36, 37, 38, 39, 42, 43, 45, 46,
94, 95, 96, 124, 126). -/
def validHeaderFieldChar (c : Char) : Bool :=
  c.isAlphanum || [33, 35, 36, 37, 38, 39, 42, 43, 45, 46, 94, 95, 96, 124, 126].contains c.toNat

/-- Case-canonicalization pass of `textproto.canonicalMIMEHeaderKey`:
uppercase the first character and every character following a hyphen,
lowercase the rest; the flag records whether the next character starts a
word. -/
def canonicalizeChars : Bool → List Char → List Char
  | _, [] => []
  | upper, c :: rest =>
    let c2 := if upper then c.toUpper else c.toLower
    c2 :: canonicalizeChars (c2 == '-') rest

/-- Go `http.CanonicalHeaderKey` (via `textproto.CanonicalMIMEHeaderKey`):
returns the argument unchanged if it contains a byte outside the header
token table, otherwise canonicalizes letter case. -/
def canonicalHeaderKey (s : String) : String :=
  if s.data.all validHeaderFieldChar then String.mk (canonicalizeChars true s.data) else s

/-- Pointwise update of a Go `map[string]bool`, modelled as a partial
function (`none` encodes absence). -/
def updateS (m : String → Option Bool) (k : String) (v : Bool) : String → Option Bool :=
  fun n => if n = k then some v else m n

/-- Pointwise increment of a Go `map[T]int` (absent keys read as zero). -/
def bumpT (c : HTTPRouteFilterType → Nat) (t : HTTPRouteFilterType) : HTTPRouteFilterType → Nat :=
  fun u => if u = t then c u + 1 else c u

/-- Detail string of the conflicting-header-action error. -/
def hmDetail : String := "cannot specify multiple actions for header"

/-- Detail string of the redirect/rewrite mutual-exclusion error. -/
def mutexDetail : String :=
  "may specify either httpRouteFilterRequestRedirect or httpRouteFilterRequestRewrite, but not both"

/-- Detail string of the duplicate header-match error. -/
def matchDetail : String := "cannot match the same header multiple times in the same rule"

/-- One `for i, action := range list` loop of `validateHTTPHeaderModifier`:
each entry is the `BadValue` the error would carry together with the raw
name; the name is lower-cased at use, exactly as in the Go body.  The state
is the accumulated error list and the shared `singleAction` map. -/
def headerActionLoop (path : FieldPath) (sub : String) :
    List (BadValue × String) → List ValidationError → (String → Option Bool) →
    List ValidationError × (String → Option Bool)
  | [], errs, singleAction => (errs, singleAction)
  | (bv, name) :: rest, errs, singleAction =>
    let key := goToLower name
    match singleAction key with
    | some needsErr =>
      headerActionLoop path sub rest
        (if needsErr then errs ++ [⟨(path.child sub), bv, hmDetail⟩] else errs)
        (updateS singleAction key false)
    | none =>
      headerActionLoop path sub rest errs (updateS singleAction key true)

/-- Go `validateHTTPHeaderModifier`: the three action lists share one
`singleAction` map, processed `Add`, then `Set`, then `Remove`. -/
def validateHTTPHeaderModifier (filter : HTTPHeaderFilter) (path : FieldPath) :
    List ValidationError :=
  let st1 := headerActionLoop path "add"
    (filter.Add.map fun h => (BadValue.header h.Name h.Value, h.Name)) [] (fun _ => none)
  let st2 := headerActionLoop path "set"
    (filter.Set.map fun h => (BadValue.header h.Name h.Value, h.Name)) st1.1 st1.2
  let st3 := headerActionLoop path "remove"
    (filter.Remove.map fun n => (BadValue.str n, n)) st2.1 st2.2
  st3.1

/-- Distinct keys of the Go map `counts` in `validateHTTPHeaderMatches`:
the lower-cased names of the match list, without duplicates. -/
def headerMatchKeys (matchList : List HTTPHeaderMatch) : List String :=
  (matchList.map fun m => goToLower m.Name).dedup

/-- Multiplicity stored in the Go map `counts` of
`validateHTTPHeaderMatches` for a given lower-cased name. -/
def headerMatchCount (matchList : List HTTPHeaderMatch) (name : String) : Nat :=
  (matchList.map fun m => goToLower m.Name).count name

/-- Go `validateHTTPHeaderMatches`: count occurrences of each lower-cased
name, then range over the map and emit one error per name whose count
exceeds one.  The `range` visiting order is the oracle `ord` applied to the
key list. -/
def validateHTTPHeaderMatches (ord : List String → List String)
    (matchList : List HTTPHeaderMatch) (path : FieldPath) : List ValidationError :=
  (ord (headerMatchKeys matchList)).filterMap fun name =>
    if 1 < headerMatchCount matchList name then
      some ⟨path, BadValue.str (canonicalHeaderKey name), matchDetail⟩
    else none

/-- Predicate on the map-range oracle: it may only permute the key list.
This is the sole property Go guarantees about map iteration order. -/
def ValidOrd (ord : List String → List String) : Prop :=
  ∀ l : List String, List.Perm (ord l) l

/-- The `for i, filter := range filters` loop of `validateHTTPRouteFilters`:
threads the accumulated error list and the `counts` map; dereferences the
header-modifier payload pointers exactly when they are non-nil. -/
def filtersLoop (path : FieldPath) :
    Nat → List HTTPRouteFilter → List ValidationError → (HTTPRouteFilterType → Nat) →
    List ValidationError × (HTTPRouteFilterType → Nat)
  | _, [], errs, counts => (errs, counts)
  | i, filter :: rest, errs, counts =>
    let counts := bumpT counts filter.FilterType
    let errs := match filter.RequestHeaderModifier with
      | some f => errs ++ validateHTTPHeaderModifier f ((path.index i).child "requestHeaderModifier")
      | none => errs
    let errs := match filter.ResponseHeaderModifier with
      | some f => errs ++ validateHTTPHeaderModifier f ((path.index i).child "responseHeaderModifier")
      | none => errs
    filtersLoop path (i + 1) rest errs counts

/-- Go `validateHTTPRouteFilters`.  The `matches` parameter is part of the
Go signature but is never read by the body. -/
def validateHTTPRouteFilters (filters : List HTTPRouteFilter)
    (matchList : List HTTPRouteMatch) (path : FieldPath) : List ValidationError :=
  let st := filtersLoop path 0 filters [] (fun _ => 0)
  if 0 < st.2 HTTPRouteFilterType.requestRedirect ∧ 0 < st.2 HTTPRouteFilterType.urlRewrite then
    st.1 ++ [⟨(path.child "filters"), BadValue.filterType "RequestRedirect", mutexDetail⟩]
  else
    st.1

/-- The `for j, m := range rule.Matches` loop of `ValidateHTTPRouteSpec`:
only the header-match list is validated, and only when it is non-empty.
The body performs no check on the query-parameter list. -/
def matchesLoop (ord : List String → List String) (rulePath : FieldPath) :
    Nat → List HTTPRouteMatch → List ValidationError → List ValidationError
  | _, [], errs => errs
  | j, m :: rest, errs =>
    let matchPath := (rulePath.child "matches").index j
    let errs :=
      if 0 < m.Headers.length then
        errs ++ validateHTTPHeaderMatches ord m.Headers (matchPath.child "headers")
      else errs
    matchesLoop ord rulePath (j + 1) rest errs

/-- The `for j, backendRef := range rule.BackendRefs` loop of
`ValidateHTTPRouteSpec`. -/
def backendRefsLoop (matchList : List HTTPRouteMatch) (rulePath : FieldPath) :
    Nat → List HTTPBackendRef → List ValidationError → List ValidationError
  | _, [], errs => errs
  | j, br :: rest, errs =>
    backendRefsLoop matchList rulePath (j + 1) rest
      (errs ++ validateHTTPRouteFilters br.Filters matchList ((rulePath.child "backendRefs").index j))

/-- The `for i, rule := range spec.Rules` loop of `ValidateHTTPRouteSpec`. -/
def rulesLoop (ord : List String → List String) (path : FieldPath) :
    Nat → List HTTPRouteRule → List ValidationError → List ValidationError
  | _, [], errs => errs
  | i, rule :: rest, errs =>
    let rulePath := (path.child "rules").index i
    let errs := errs ++ validateHTTPRouteFilters rule.Filters rule.Matches rulePath
    let errs := backendRefsLoop rule.Matches rulePath 0 rule.BackendRefs errs
    let errs := matchesLoop ord rulePath 0 rule.Matches errs
    rulesLoop ord path (i + 1) rest errs

/-- Go `ValidateHTTPRouteSpec`: process each rule, then append the opaque
collaborator's errors for the full parent-reference list at
`path.Child("spec")`. -/
def ValidateHTTPRouteSpec (ord : List String → List String)
    (validateParentRefs : List ParentRef → FieldPath → List ValidationError)
    (spec : HTTPRouteSpec) (path : FieldPath) : List ValidationError :=
  let errs := rulesLoop ord path 0 spec.Rules []
  errs ++ validateParentRefs spec.ParentRefs (path.child "spec")

/-- Go `ValidateHTTPRoute`: validate the spec at root path `spec`. -/
def ValidateHTTPRoute (ord : List String → List String)
    (validateParentRefs : List ParentRef → FieldPath → List ValidationError)
    (route : HTTPRoute) : List ValidationError :=
  ValidateHTTPRouteSpec ord validateParentRefs route.Spec (FieldPath.newPath "spec")

/-! Characterization of `validateHTTPHeaderModifier`.

The three action lists, tagged with the sub-path their errors would carry,
form one sequence; the loop emits exactly the entries that are the second
occurrence of their lower-cased name in that sequence. -/

/-- The `Add`, `Set` and `Remove` entries in processing order, each tagged
with its list's sub-path name, the `BadValue` its error would carry, and
its raw name. -/
def hmEntries (filter : HTTPHeaderFilter) : List (String × BadValue × String) :=
  (filter.Add.map fun h => ("add", BadValue.header h.Name h.Value, h.Name)) ++
  (filter.Set.map fun h => ("set", BadValue.header h.Name h.Value, h.Name)) ++
  (filter.Remove.map fun n => ("remove", BadValue.str n, n))

/-- Lower-cased names of a tagged entry sequence. -/
def hmKeys (l : List (String × BadValue × String)) : List String :=
  l.map fun e => goToLower e.2.2

/-- Entries that are the second occurrence of their lower-cased name, given
the multiset `seen` of names already processed. -/
def hmSeconds (seen : List String) : List (String × BadValue × String) →
    List (String × BadValue × String)
  | [] => []
  | e :: rest =>
    let key := goToLower e.2.2
    if seen.count key = 1 then e :: hmSeconds (key :: seen) rest
    else hmSeconds (key :: seen) rest

/-- Error built from a tagged entry, as `validateHTTPHeaderModifier` emits
it. -/
def hmMkError (path : FieldPath) (e : String × BadValue × String) : ValidationError :=
  ⟨(path.child e.1), e.2.1, hmDetail⟩

/-- Invariant tying the `singleAction` map to the multiset of lower-cased
names already processed: absent means unseen, `true` means seen exactly
once, `false` means seen at least twice. -/
def SingleActionInv (m : String → Option Bool) (seen : List String) : Prop :=
  ∀ n, m n = if seen.count n = 0 then none else some (seen.count n == 1)

lemma singleActionInv_empty : SingleActionInv (fun _ => none) [] := by
  intro n; simp

lemma singleActionInv_update {m : String → Option Bool} {seen : List String}
    (h : SingleActionInv m seen) (key : String) :
    SingleActionInv (updateS m key (seen.count key == 0)) (key :: seen) := by
  intro n
  unfold updateS
  by_cases hn : n = key
  · subst hn
    rw [if_pos rfl]
    have hcount : (n :: seen).count n = seen.count n + 1 := by
      simp [List.count_cons]
    rw [hcount, if_neg (by omega)]
    congr 1
    cases seen.count n <;> rfl
  · have hcount : (key :: seen).count n = seen.count n := by
      simp [List.count_cons, hn]
    rw [if_neg hn, hcount, h n]

lemma headerActionLoop_cons_none {m : String → Option Bool} {name : String}
    (path : FieldPath) (sub : String) (bv : BadValue) (rest : List (BadValue × String))
    (errs : List ValidationError) (h : m (goToLower name) = none) :
    headerActionLoop path sub ((bv, name) :: rest) errs m =
      headerActionLoop path sub rest errs (updateS m (goToLower name) true) := by
  simp only [headerActionLoop, h]

lemma headerActionLoop_cons_true {m : String → Option Bool} {name : String}
    (path : FieldPath) (sub : String) (bv : BadValue) (rest : List (BadValue × String))
    (errs : List ValidationError) (h : m (goToLower name) = some true) :
    headerActionLoop path sub ((bv, name) :: rest) errs m =
      headerActionLoop path sub rest (errs ++ [⟨(path.child sub), bv, hmDetail⟩])
        (updateS m (goToLower name) false) := by
  simp only [headerActionLoop, h, if_true]

lemma headerActionLoop_cons_false {m : String → Option Bool} {name : String}
    (path : FieldPath) (sub : String) (bv : BadValue) (rest : List (BadValue × String))
    (errs : List ValidationError) (h : m (goToLower name) = some false) :
    headerActionLoop path sub ((bv, name) :: rest) errs m =
      headerActionLoop path sub rest errs (updateS m (goToLower name) false) := by
  simp only [headerActionLoop, h, Bool.false_eq_true, if_false]

lemma hmSeconds_cons (seen : List String) (sub : String) (bv : BadValue) (name : String)
    (rest : List (String × BadValue × String)) :
    hmSeconds seen ((sub, bv, name) :: rest) =
      if seen.count (goToLower name) = 1 then (sub, bv, name) :: hmSeconds (goToLower name :: seen) rest
      else hmSeconds (goToLower name :: seen) rest := rfl

lemma headerActionLoop_spec (path : FieldPath) (sub : String) :
    ∀ (l : List (BadValue × String)) (errs : List ValidationError)
      (m : String → Option Bool) (seen : List String), SingleActionInv m seen →
      (headerActionLoop path sub l errs m).1 =
        errs ++ (hmSeconds seen (l.map fun e => (sub, e.1, e.2))).map (hmMkError path) ∧
      SingleActionInv (headerActionLoop path sub l errs m).2
        ((hmKeys (l.map fun e => (sub, e.1, e.2))).reverse ++ seen) := by
  intro l
  induction l with
  | nil =>
    intro errs m seen hInv
    refine ⟨by simp [headerActionLoop, hmSeconds], ?_⟩
    simpa [headerActionLoop, hmKeys] using hInv
  | cons e rest ih =>
    obtain ⟨bv, name⟩ := e
    intro errs m seen hInv
    have hm := hInv (goToLower name)
    have hupd := singleActionInv_update hInv (goToLower name)
    by_cases h0 : seen.count (goToLower name) = 0
    · rw [if_pos h0] at hm
      rw [h0] at hupd
      rw [headerActionLoop_cons_none path sub bv rest errs hm]
      obtain ⟨ih1, ih2⟩ := ih errs (updateS m (goToLower name) true) (goToLower name :: seen) hupd
      refine ⟨?_, ?_⟩
      · have hcond : ¬seen.count (goToLower name) = 1 := by omega
        rw [ih1, List.map_cons, hmSeconds_cons, if_neg hcond]
      · simpa [hmKeys, List.append_assoc] using ih2
    · rw [if_neg h0] at hm
      by_cases h1 : seen.count (goToLower name) = 1
      · have hmt : m (goToLower name) = some true := by
          rw [hm, h1]
          rfl
        have hupd' : SingleActionInv (updateS m (goToLower name) false)
            (goToLower name :: seen) := by
          have hb0 : (seen.count (goToLower name) == 0) = false := by
            simp [h0]
          rwa [hb0] at hupd
        rw [headerActionLoop_cons_true path sub bv rest errs hmt]
        obtain ⟨ih1, ih2⟩ :=
          ih (errs ++ [⟨(path.child sub), bv, hmDetail⟩])
            (updateS m (goToLower name) false) (goToLower name :: seen) hupd'
        refine ⟨?_, ?_⟩
        · rw [ih1, List.map_cons, hmSeconds_cons, if_pos h1]
          simp [hmMkError, List.append_assoc]
        · simpa [hmKeys, List.append_assoc] using ih2
      · have hmf : m (goToLower name) = some false := by
          rw [hm]
          congr 1
          simp [h1]
        have hupd' : SingleActionInv (updateS m (goToLower name) false)
            (goToLower name :: seen) := by
          have hb0 : (seen.count (goToLower name) == 0) = false := by
            simp [h0]
          rwa [hb0] at hupd
        rw [headerActionLoop_cons_false path sub bv rest errs hmf]
        obtain ⟨ih1, ih2⟩ :=
          ih errs (updateS m (goToLower name) false) (goToLower name :: seen) hupd'
        refine ⟨?_, ?_⟩
        · rw [ih1, List.map_cons, hmSeconds_cons, if_neg h1]
        · simpa [hmKeys, List.append_assoc] using ih2

lemma hmKeys_cons (sub : String) (bv : BadValue) (name : String)
    (rest : List (String × BadValue × String)) :
    hmKeys ((sub, bv, name) :: rest) = goToLower name :: hmKeys rest := rfl

lemma hmSeconds_append (l1 l2 : List (String × BadValue × String)) :
    ∀ seen, hmSeconds seen (l1 ++ l2) =
      hmSeconds seen l1 ++ hmSeconds ((hmKeys l1).reverse ++ seen) l2 := by
  induction l1 with
  | nil => intro seen; simp [hmSeconds, hmKeys]
  | cons e rest ih =>
    obtain ⟨sub, bv, name⟩ := e
    intro seen
    rw [List.cons_append, hmSeconds_cons, hmSeconds_cons]
    by_cases h : seen.count (goToLower name) = 1
    · rw [if_pos h, if_pos h, ih, List.cons_append, hmKeys_cons]
      simp [List.append_assoc]
    · rw [if_neg h, if_neg h, ih, hmKeys_cons]
      simp [List.append_assoc]

/-- The processing of the three lists of `validateHTTPHeaderModifier` is the
second-occurrence selection over the tagged entry sequence. -/
lemma validateHTTPHeaderModifier_eq (filter : HTTPHeaderFilter) (path : FieldPath) :
    validateHTTPHeaderModifier filter path =
      (hmSeconds [] (hmEntries filter)).map (hmMkError path) := by
  have hA : (filter.Add.map fun h => (BadValue.header h.Name h.Value, h.Name)).map
      (fun e => ("add", e.1, e.2)) =
      filter.Add.map fun h => ("add", BadValue.header h.Name h.Value, h.Name) := by
    simp [List.map_map]
  have hS : (filter.Set.map fun h => (BadValue.header h.Name h.Value, h.Name)).map
      (fun e => ("set", e.1, e.2)) =
      filter.Set.map fun h => ("set", BadValue.header h.Name h.Value, h.Name) := by
    simp [List.map_map]
  have hR : (filter.Remove.map fun n => (BadValue.str n, n)).map
      (fun e => ("remove", e.1, e.2)) =
      filter.Remove.map fun n => ("remove", BadValue.str n, n) := by
    simp [List.map_map]
  obtain ⟨h11, h12⟩ := headerActionLoop_spec path "add"
    (filter.Add.map fun h => (BadValue.header h.Name h.Value, h.Name))
    [] (fun _ => none) [] singleActionInv_empty
  obtain ⟨h21, h22⟩ := headerActionLoop_spec path "set"
    (filter.Set.map fun h => (BadValue.header h.Name h.Value, h.Name))
    (headerActionLoop path "add"
      (filter.Add.map fun h => (BadValue.header h.Name h.Value, h.Name)) [] (fun _ => none)).1
    (headerActionLoop path "add"
      (filter.Add.map fun h => (BadValue.header h.Name h.Value, h.Name)) [] (fun _ => none)).2
    _ h12
  obtain ⟨h31, _⟩ := headerActionLoop_spec path "remove"
    (filter.Remove.map fun n => (BadValue.str n, n)) _ _ _ h22
  unfold validateHTTPHeaderModifier
  rw [h31, h21, h11]
  rw [hA, hS, hR] at *
  rw [hmEntries, hmSeconds_append, hmSeconds_append]
  simp [List.append_assoc, hmKeys, List.map_map]

/-- Multiplicity of an emitted key in the second-occurrence selection: a
key whose running count (prior multiset `seen` plus entries) reaches two is
emitted exactly once, any other key never. -/
lemma hmSeconds_keys_count (n : String) :
    ∀ (l : List (String × BadValue × String)) (seen : List String),
      (hmKeys (hmSeconds seen l)).count n =
        if seen.count n = 1 ∧ 1 ≤ (hmKeys l).count n then 1
        else if seen.count n = 0 ∧ 2 ≤ (hmKeys l).count n then 1 else 0 := by
  intro l
  induction l with
  | nil =>
    intro seen
    simp [hmSeconds, hmKeys]
  | cons e rest ih =>
    obtain ⟨sub, bv, name⟩ := e
    intro seen
    rw [hmSeconds_cons]
    by_cases hkey : n = goToLower name
    · subst hkey
      have hseen : (goToLower name :: seen).count (goToLower name) =
          seen.count (goToLower name) + 1 := by
        simp [List.count_cons]
      by_cases h1 : seen.count (goToLower name) = 1
      · rw [if_pos h1, hmKeys_cons, List.count_cons_self, ih, hseen, hmKeys_cons,
          List.count_cons_self]
        split_ifs <;> first
          | omega
          | simp_all
      · rw [if_neg h1, ih, hseen, hmKeys_cons, List.count_cons_self]
        split_ifs <;> first
          | omega
          | simp_all
    · have hseen : (goToLower name :: seen).count n = seen.count n := by
        simp [List.count_cons, hkey]
      have hkeys : ∀ l2, (hmKeys ((sub, bv, name) :: l2)).count n = (hmKeys l2).count n := by
        intro l2
        rw [hmKeys_cons]
        simp [List.count_cons, hkey]
      by_cases h1 : seen.count (goToLower name) = 1
      · rw [if_pos h1, hkeys, ih, hseen, hkeys]
      · rw [if_neg h1, ih, hseen, hkeys]

/-! Characterization of `validateHTTPRouteFilters` and of the rule loop of
`ValidateHTTPRouteSpec`. -/

/-- Errors contributed by the per-filter delegation inside the filter loop:
one block per filter whose `RequestHeaderModifier` or
`ResponseHeaderModifier` payload is present, in index order. -/
def delegationErrors (path : FieldPath) : Nat → List HTTPRouteFilter → List ValidationError
  | _, [] => []
  | i, filter :: rest =>
    (match filter.RequestHeaderModifier with
      | some f => validateHTTPHeaderModifier f ((path.index i).child "requestHeaderModifier")
      | none => []) ++
    (match filter.ResponseHeaderModifier with
      | some f => validateHTTPHeaderModifier f ((path.index i).child "responseHeaderModifier")
      | none => []) ++
    delegationErrors path (i + 1) rest

/-- Value of the Go map `counts` at key `t` after the filter loop. -/
def countFilterType (filters : List HTTPRouteFilter) (t : HTTPRouteFilterType) : Nat :=
  filters.countP fun f => f.FilterType == t

lemma filtersLoop_spec (path : FieldPath) :
    ∀ (l : List HTTPRouteFilter) (i : Nat) (errs : List ValidationError)
      (counts : HTTPRouteFilterType → Nat),
      filtersLoop path i l errs counts =
        (errs ++ delegationErrors path i l, fun t => counts t + countFilterType l t) := by
  intro l
  induction l with
  | nil =>
    intro i errs counts
    simp [filtersLoop, delegationErrors, countFilterType]
  | cons filter rest ih =>
    intro i errs counts
    rcases hreq : filter.RequestHeaderModifier with _ | f <;>
      rcases hres : filter.ResponseHeaderModifier with _ | g <;>
      simp only [filtersLoop, delegationErrors, hreq, hres, ih] <;>
      refine Prod.ext ?_ (funext fun t => ?_) <;>
      simp only [List.append_assoc, List.nil_append, List.append_nil] <;>
      try rfl
    all_goals {
      show bumpT counts filter.FilterType t + countFilterType rest t =
        counts t + countFilterType (filter :: rest) t
      unfold bumpT countFilterType
      rw [List.countP_cons]
      by_cases ht : t = filter.FilterType
      · subst ht; simp; omega
      · have : (filter.FilterType == t) = false := by
          simp [Ne.symm ht]
        simp [ht, this]
    }

/-- The filter-list check is the delegation block followed by at most one
mutual-exclusion error keyed on the type counts. -/
lemma validateHTTPRouteFilters_eq (filters : List HTTPRouteFilter)
    (matchList : List HTTPRouteMatch) (path : FieldPath) :
    validateHTTPRouteFilters filters matchList path =
      delegationErrors path 0 filters ++
      (if 0 < countFilterType filters HTTPRouteFilterType.requestRedirect ∧
          0 < countFilterType filters HTTPRouteFilterType.urlRewrite then
        [⟨(path.child "filters"), BadValue.filterType "RequestRedirect", mutexDetail⟩]
      else []) := by
  unfold validateHTTPRouteFilters
  rw [filtersLoop_spec]
  simp only [Nat.zero_add]
  split_ifs <;> simp

/-- Errors contributed by the match loop of `ValidateHTTPRouteSpec`: the
header-match check for each non-empty header list, in index order; nothing
is contributed for query parameters. -/
def matchErrors (ord : List String → List String) (rulePath : FieldPath) :
    Nat → List HTTPRouteMatch → List ValidationError
  | _, [] => []
  | j, m :: rest =>
    (if 0 < m.Headers.length then
      validateHTTPHeaderMatches ord m.Headers (((rulePath.child "matches").index j).child "headers")
    else []) ++ matchErrors ord rulePath (j + 1) rest

lemma matchesLoop_spec (ord : List String → List String) (rulePath : FieldPath) :
    ∀ (l : List HTTPRouteMatch) (j : Nat) (errs : List ValidationError),
      matchesLoop ord rulePath j l errs = errs ++ matchErrors ord rulePath j l := by
  intro l
  induction l with
  | nil => intro j errs; simp [matchesLoop, matchErrors]
  | cons m rest ih =>
    intro j errs
    by_cases h : 0 < m.Headers.length <;>
      simp only [matchesLoop, matchErrors, h, if_true, if_false, ih, List.append_assoc,
        List.nil_append]

/-- Errors contributed by the backend-reference loop of
`ValidateHTTPRouteSpec`, in index order. -/
def backendRefErrors (matchList : List HTTPRouteMatch) (rulePath : FieldPath) :
    Nat → List HTTPBackendRef → List ValidationError
  | _, [] => []
  | j, br :: rest =>
    validateHTTPRouteFilters br.Filters matchList ((rulePath.child "backendRefs").index j) ++
    backendRefErrors matchList rulePath (j + 1) rest

lemma backendRefsLoop_spec (matchList : List HTTPRouteMatch) (rulePath : FieldPath) :
    ∀ (l : List HTTPBackendRef) (j : Nat) (errs : List ValidationError),
      backendRefsLoop matchList rulePath j l errs = errs ++ backendRefErrors matchList rulePath j l := by
  intro l
  induction l with
  | nil => intro j errs; simp [backendRefsLoop, backendRefErrors]
  | cons br rest ih =>
    intro j errs
    simp only [backendRefsLoop, backendRefErrors, ih, List.append_assoc]

/-- Errors contributed by one rule at index `i`: its own filter list, then
each backend reference's filter list, then each match block's header
matches. -/
def ruleErrors (ord : List String → List String) (path : FieldPath) (i : Nat)
    (rule : HTTPRouteRule) : List ValidationError :=
  validateHTTPRouteFilters rule.Filters rule.Matches ((path.child "rules").index i) ++
  backendRefErrors rule.Matches ((path.child "rules").index i) 0 rule.BackendRefs ++
  matchErrors ord ((path.child "rules").index i) 0 rule.Matches

/-- Errors contributed by the rule list starting at index `i`. -/
def ruleListErrors (ord : List String → List String) (path : FieldPath) :
    Nat → List HTTPRouteRule → List ValidationError
  | _, [] => []
  | i, rule :: rest => ruleErrors ord path i rule ++ ruleListErrors ord path (i + 1) rest

lemma rulesLoop_spec (ord : List String → List String) (path : FieldPath) :
    ∀ (l : List HTTPRouteRule) (i : Nat) (errs : List ValidationError),
      rulesLoop ord path i l errs = errs ++ ruleListErrors ord path i l := by
  intro l
  induction l with
  | nil => intro i errs; simp [rulesLoop, ruleListErrors]
  | cons rule rest ih =>
    intro i errs
    simp only [rulesLoop, ruleListErrors, ruleErrors, ih, matchesLoop_spec, backendRefsLoop_spec,
      List.append_assoc]

/-- `ValidateHTTPRouteSpec` decomposes into the per-rule error blocks
followed by the collaborator's errors. -/
lemma validateHTTPRouteSpec_eq (ord : List String → List String)
    (validateParentRefs : List ParentRef → FieldPath → List ValidationError)
    (spec : HTTPRouteSpec) (path : FieldPath) :
    ValidateHTTPRouteSpec ord validateParentRefs spec path =
      ruleListErrors ord path 0 spec.Rules ++
      validateParentRefs spec.ParentRefs (path.child "spec") := by
  unfold ValidateHTTPRouteSpec
  rw [rulesLoop_spec]
  simp

/-! Characterization of `validateHTTPHeaderMatches`. -/

/-- Distinct lower-cased names occurring more than once in a header-match
list. -/
def duplicateHeaderKeys (matchList : List HTTPHeaderMatch) : List String :=
  (headerMatchKeys matchList).filter fun n => decide (1 < headerMatchCount matchList n)

/-- Error emitted for one duplicated header name. -/
def matchMkError (path : FieldPath) (n : String) : ValidationError :=
  ⟨path, BadValue.str (canonicalHeaderKey n), matchDetail⟩

lemma filterMap_ite {α β : Type} (p : α → Prop) [DecidablePred p] (f : α → β) :
    ∀ l : List α,
      (l.filterMap fun a => if p a then some (f a) else none) =
        (l.filter fun a => decide (p a)).map f := by
  intro l
  induction l with
  | nil => rfl
  | cons a rest ih =>
    by_cases h : p a <;> simp [List.filterMap_cons, List.filter_cons, h, ih]

lemma validateHTTPHeaderMatches_eq (ord : List String → List String)
    (matchList : List HTTPHeaderMatch) (path : FieldPath) :
    validateHTTPHeaderMatches ord matchList path =
      ((ord (headerMatchKeys matchList)).filter fun n =>
        decide (1 < headerMatchCount matchList n)).map (matchMkError path) := by
  unfold validateHTTPHeaderMatches
  exact filterMap_ite _ _ _

/-- Under any legal map-iteration order, the header-match check emits a
permutation of one canonical error per duplicated name. -/
lemma validateHTTPHeaderMatches_perm {ord : List String → List String}
    (hord : ValidOrd ord) (matchList : List HTTPHeaderMatch) (path : FieldPath) :
    List.Perm (validateHTTPHeaderMatches ord matchList path)
      ((duplicateHeaderKeys matchList).map (matchMkError path)) := by
  rw [validateHTTPHeaderMatches_eq]
  exact ((hord (headerMatchKeys matchList)).filter _).map _

lemma duplicateHeaderKeys_nodup (matchList : List HTTPHeaderMatch) :
    (duplicateHeaderKeys matchList).Nodup :=
  (List.nodup_dedup _).filter _

lemma mem_duplicateHeaderKeys (matchList : List HTTPHeaderMatch) (n : String) :
    n ∈ duplicateHeaderKeys matchList ↔ 1 < headerMatchCount matchList n := by
  unfold duplicateHeaderKeys headerMatchKeys headerMatchCount
  rw [List.mem_filter, List.mem_dedup]
  constructor
  · intro h
    simpa using h.2
  · intro h
    refine ⟨?_, by simpa using h⟩
    have : 0 < (matchList.map fun m => goToLower m.Name).count n := by omega
    exact List.count_pos_iff.mp this

lemma validateHTTPHeaderMatches_perm2 {ord1 ord2 : List String → List String}
    (h1 : ValidOrd ord1) (h2 : ValidOrd ord2)
    (matchList : List HTTPHeaderMatch) (path : FieldPath) :
    List.Perm (validateHTTPHeaderMatches ord1 matchList path)
      (validateHTTPHeaderMatches ord2 matchList path) :=
  (validateHTTPHeaderMatches_perm h1 matchList path).trans
    (validateHTTPHeaderMatches_perm h2 matchList path).symm

lemma validOrd_id : ValidOrd id := fun l => List.Perm.refl l

lemma validOrd_reverse : ValidOrd List.reverse := fun l => l.reverse_perm

/-! Detail strings separate the three error kinds. -/

lemma validateHTTPHeaderModifier_detail (f : HTTPHeaderFilter) (p : FieldPath) :
    ∀ e ∈ validateHTTPHeaderModifier f p, e.detail = hmDetail := by
  intro e he
  rw [validateHTTPHeaderModifier_eq] at he
  obtain ⟨x, _, rfl⟩ := List.mem_map.mp he
  rfl

lemma delegationErrors_detail (path : FieldPath) :
    ∀ (l : List HTTPRouteFilter) (i : Nat), ∀ e ∈ delegationErrors path i l, e.detail = hmDetail := by
  intro l
  induction l with
  | nil => intro i e he; simp [delegationErrors] at he
  | cons filter rest ih =>
    intro i e he
    rcases hreq : filter.RequestHeaderModifier with _ | f1 <;>
      rcases hres : filter.ResponseHeaderModifier with _ | f2 <;>
      simp only [delegationErrors, hreq, hres, List.mem_append, List.nil_append,
        List.append_nil, List.not_mem_nil, false_or, List.mem_singleton] at he
    · exact ih (i + 1) e he
    · rcases he with he | he
      · exact validateHTTPHeaderModifier_detail _ _ e he
      · exact ih (i + 1) e he
    · rcases he with he | he
      · exact validateHTTPHeaderModifier_detail _ _ e he
      · exact ih (i + 1) e he
    · rcases he with (he | he) | he
      · exact validateHTTPHeaderModifier_detail _ _ e he
      · exact validateHTTPHeaderModifier_detail _ _ e he
      · exact ih (i + 1) e he

lemma hmDetail_ne_mutexDetail : hmDetail ≠ mutexDetail := by decide

lemma delegationErrors_countP_mutex (path : FieldPath) (i : Nat) (l : List HTTPRouteFilter) :
    (delegationErrors path i l).countP (fun e => e.detail == mutexDetail) = 0 := by
  rw [List.countP_eq_zero]
  intro e he
  have hd := delegationErrors_detail path l i e he
  simp [hd, hmDetail_ne_mutexDetail]

/-! Structural lemmas for appending and locating rules. -/

lemma ruleListErrors_append (ord : List String → List String) (path : FieldPath) :
    ∀ (l1 l2 : List HTTPRouteRule) (i : Nat),
      ruleListErrors ord path i (l1 ++ l2) =
        ruleListErrors ord path i l1 ++ ruleListErrors ord path (i + l1.length) l2 := by
  intro l1
  induction l1 with
  | nil => intro l2 i; simp [ruleListErrors]
  | cons rule rest ih =>
    intro l2 i
    simp only [List.cons_append, ruleListErrors, List.length_cons, List.append_eq]
    rw [ih]
    have harith : i + 1 + rest.length = i + (rest.length + 1) := by omega
    rw [harith, List.append_assoc]

lemma mem_ruleListErrors (ord : List String → List String) (path : FieldPath) :
    ∀ (l : List HTTPRouteRule) (i0 k : Nat) (rule : HTTPRouteRule), l[k]? = some rule →
      ∀ e ∈ ruleErrors ord path (i0 + k) rule, e ∈ ruleListErrors ord path i0 l := by
  intro l
  induction l with
  | nil => intro i0 k rule h; simp at h
  | cons head rest ih =>
    intro i0 k rule h e he
    cases k with
    | zero =>
      rw [List.getElem?_cons_zero] at h
      obtain rfl : head = rule := by injection h
      simp only [ruleListErrors, List.mem_append]
      exact Or.inl (by simpa using he)
    | succ k =>
      rw [List.getElem?_cons_succ] at h
      simp only [ruleListErrors, List.mem_append]
      refine Or.inr (ih (i0 + 1) k rule h e ?_)
      have harith : i0 + 1 + k = i0 + (k + 1) := by omega
      rwa [harith]

lemma mem_backendRefErrors (matchList : List HTTPRouteMatch) (rulePath : FieldPath) :
    ∀ (l : List HTTPBackendRef) (j0 k : Nat) (br : HTTPBackendRef), l[k]? = some br →
      ∀ e ∈ validateHTTPRouteFilters br.Filters matchList
        ((rulePath.child "backendRefs").index (j0 + k)),
        e ∈ backendRefErrors matchList rulePath j0 l := by
  intro l
  induction l with
  | nil => intro j0 k br h; simp at h
  | cons head rest ih =>
    intro j0 k br h e he
    cases k with
    | zero =>
      rw [List.getElem?_cons_zero] at h
      obtain rfl : head = br := by injection h
      simp only [backendRefErrors, List.mem_append]
      exact Or.inl (by simpa using he)
    | succ k =>
      rw [List.getElem?_cons_succ] at h
      simp only [backendRefErrors, List.mem_append]
      refine Or.inr (ih (j0 + 1) k br h e ?_)
      have harith : j0 + 1 + k = j0 + (k + 1) := by omega
      rwa [harith]

lemma mem_matchErrors (ord : List String → List String) (rulePath : FieldPath) :
    ∀ (l : List HTTPRouteMatch) (j0 k : Nat) (m : HTTPRouteMatch), l[k]? = some m →
      0 < m.Headers.length →
      ∀ e ∈ validateHTTPHeaderMatches ord m.Headers
        ((((rulePath.child "matches").index (j0 + k))).child "headers"),
        e ∈ matchErrors ord rulePath j0 l := by
  intro l
  induction l with
  | nil => intro j0 k m h; simp at h
  | cons head rest ih =>
    intro j0 k m h hlen e he
    cases k with
    | zero =>
      rw [List.getElem?_cons_zero] at h
      obtain rfl : head = m := by injection h
      simp only [matchErrors, List.mem_append]
      exact Or.inl (by rw [if_pos hlen]; simpa using he)
    | succ k =>
      rw [List.getElem?_cons_succ] at h
      simp only [matchErrors, List.mem_append]
      refine Or.inr (ih (j0 + 1) k m h hlen e ?_)
      have harith : j0 + 1 + k = j0 + (k + 1) := by omega
      rwa [harith]

/-! Results under two legal map-iteration orders are permutations of each
other. -/

lemma matchErrors_perm {ord1 ord2 : List String → List String}
    (h1 : ValidOrd ord1) (h2 : ValidOrd ord2) (rulePath : FieldPath) :
    ∀ (l : List HTTPRouteMatch) (j : Nat),
      List.Perm (matchErrors ord1 rulePath j l) (matchErrors ord2 rulePath j l) := by
  intro l
  induction l with
  | nil => intro j; simp [matchErrors]
  | cons m rest ih =>
    intro j
    refine List.Perm.append ?_ (ih (j + 1))
    by_cases hlen : 0 < m.Headers.length
    · rw [if_pos hlen, if_pos hlen]
      exact validateHTTPHeaderMatches_perm2 h1 h2 _ _
    · rw [if_neg hlen, if_neg hlen]

lemma ruleErrors_perm {ord1 ord2 : List String → List String}
    (h1 : ValidOrd ord1) (h2 : ValidOrd ord2) (path : FieldPath) (i : Nat)
    (rule : HTTPRouteRule) :
    List.Perm (ruleErrors ord1 path i rule) (ruleErrors ord2 path i rule) :=
  List.Perm.append (List.Perm.refl _) (matchErrors_perm h1 h2 _ _ _)

lemma ruleListErrors_perm {ord1 ord2 : List String → List String}
    (h1 : ValidOrd ord1) (h2 : ValidOrd ord2) (path : FieldPath) :
    ∀ (l : List HTTPRouteRule) (i : Nat),
      List.Perm (ruleListErrors ord1 path i l) (ruleListErrors ord2 path i l) := by
  intro l
  induction l with
  | nil => intro i; simp [ruleListErrors]
  | cons rule rest ih =>
    intro i
    exact List.Perm.append (ruleErrors_perm h1 h2 path i rule) (ih (i + 1))

/-! Claim theorems. -/

/-- Failing input for the query-parameter claim: one rule, one match block
whose query-parameter list names `query-param-1` twice. -/
def c1QueryParams : List HTTPQueryParamMatch :=
  [⟨"query-param-1", "val-1"⟩, ⟨"query-param-2", "val-2"⟩, ⟨"query-param-1", "val-3"⟩]

def c1Spec : HTTPRouteSpec :=
  ⟨[], [{ Matches := [{ Headers := [], QueryParams := c1QueryParams }] }]⟩

/-- C1: the code performs no query-parameter uniqueness check at all —
`ValidateHTTPRouteSpec` validates only `m.Headers`.  On a match block whose
query-param list repeats `query-param-1`, top-level validation returns the
empty error list, whereas the claim (and the repository's own
`TestValidateHTTPQueryParamMatches`) expects exactly one error at
`spec.rules[0].matches[0].queryParams`. -/
theorem c1_queryParamDuplicatesUnreported :
    ValidateHTTPRouteSpec id (fun _ _ => []) c1Spec (FieldPath.newPath "spec") = [] := by
  rfl

/-- C2: `validateHTTPHeaderModifier` emits exactly the entries that are the
second occurrence of their lower-cased name across `Add`, `Set`, `Remove`
processed in that order, each error at the sub-path (`add`, `set` or
`remove`) of the list containing that second occurrence; consequently every
name targeted by two or more actions yields exactly one error and every
other name yields none, regardless of where or how often the repeats
occur. -/
theorem c2_headerModifierOneErrorPerConflictingName
    (filter : HTTPHeaderFilter) (path : FieldPath) :
    validateHTTPHeaderModifier filter path =
      (hmSeconds [] (hmEntries filter)).map (hmMkError path) ∧
    ∀ n : String, (hmKeys (hmSeconds [] (hmEntries filter))).count n =
      if 2 ≤ (hmKeys (hmEntries filter)).count n then 1 else 0 := by
  refine ⟨validateHTTPHeaderModifier_eq filter path, fun n => ?_⟩
  rw [hmSeconds_keys_count]
  simp

/-- C3: the filter-type conflict check emits exactly one error with the
mutual-exclusion detail when the list contains at least one
`RequestRedirect`-typed and at least one `URLRewrite`-typed filter, and none
otherwise, independent of multiplicities; any such error sits at
`<path>.filters`. -/
theorem c3_mutuallyExclusiveFilterKinds (filters : List HTTPRouteFilter)
    (matchList : List HTTPRouteMatch) (path : FieldPath) :
    (validateHTTPRouteFilters filters matchList path).countP
        (fun e => e.detail == mutexDetail) =
      (if (∃ f ∈ filters, f.FilterType = HTTPRouteFilterType.requestRedirect) ∧
          (∃ f ∈ filters, f.FilterType = HTTPRouteFilterType.urlRewrite) then 1 else 0) ∧
    ∀ e ∈ validateHTTPRouteFilters filters matchList path, e.detail = mutexDetail →
      e.path = path.child "filters" := by
  have hiff : (0 < countFilterType filters HTTPRouteFilterType.requestRedirect ∧
      0 < countFilterType filters HTTPRouteFilterType.urlRewrite) ↔
      ((∃ f ∈ filters, f.FilterType = HTTPRouteFilterType.requestRedirect) ∧
       (∃ f ∈ filters, f.FilterType = HTTPRouteFilterType.urlRewrite)) := by
    unfold countFilterType
    rw [List.countP_pos_iff, List.countP_pos_iff]
    simp
  constructor
  · rw [validateHTTPRouteFilters_eq, List.countP_append, delegationErrors_countP_mutex,
      Nat.zero_add, ← if_congr hiff rfl rfl]
    split_ifs <;> simp [List.countP_cons, mutexDetail]
  · intro e he hdet
    rw [validateHTTPRouteFilters_eq] at he
    rcases List.mem_append.mp he with he | he
    · have hd := delegationErrors_detail path filters 0 e he
      exact absurd (hd.symm.trans hdet) hmDetail_ne_mutexDetail
    · split_ifs at he with hc
      · rw [List.mem_singleton] at he
        rw [he]
      · simp at he

/-- C4: under any legal map-iteration order, the header-match uniqueness
check emits a permutation of one error per distinct lower-cased name
occurring more than once — at the match block's headers path itself, with
the name in canonical header capitalization as the invalid value — and a
name is in the duplicate set exactly when its case-folded count exceeds
one. -/
theorem c4_headerMatchDuplicates (ord : List String → List String)
    (hord : ValidOrd ord) (matchList : List HTTPHeaderMatch) (path : FieldPath) :
    List.Perm (validateHTTPHeaderMatches ord matchList path)
      ((duplicateHeaderKeys matchList).map (matchMkError path)) ∧
    (duplicateHeaderKeys matchList).Nodup ∧
    (∀ n : String, n ∈ duplicateHeaderKeys matchList ↔ 1 < headerMatchCount matchList n) :=
  ⟨validateHTTPHeaderMatches_perm hord matchList path,
   duplicateHeaderKeys_nodup matchList,
   mem_duplicateHeaderKeys matchList⟩

/-- Concrete input for the C4 witness: the repository's own test case with
a case-insensitive duplicate. -/
def c4Matches : List HTTPHeaderMatch :=
  [⟨"Header-Name-1", "val-1"⟩, ⟨"Header-Name-2", "val-2"⟩, ⟨"HEADER-NAME-2", "val-3"⟩]

/-- Witness for C4 at the identity iteration order. -/
theorem c4_headerMatchDuplicates_witness :
    ValidOrd id ∧
    (List.Perm (validateHTTPHeaderMatches id c4Matches (FieldPath.newPath "q"))
      ((duplicateHeaderKeys c4Matches).map (matchMkError (FieldPath.newPath "q"))) ∧
    (duplicateHeaderKeys c4Matches).Nodup ∧
    (∀ n : String, n ∈ duplicateHeaderKeys c4Matches ↔ 1 < headerMatchCount c4Matches n)) :=
  ⟨validOrd_id, c4_headerMatchDuplicates id validOrd_id c4Matches (FieldPath.newPath "q")⟩

/-- Counterexample input for C5: a single filter whose `Type` tag is
`RequestMirror` but which carries a `RequestHeaderModifier` payload with a
duplicated `Add` entry. -/
def c5Filters : List HTTPRouteFilter :=
  [{ FilterType := HTTPRouteFilterType.requestMirror,
     RequestHeaderModifier := some ⟨[⟨"x-a", "1"⟩, ⟨"x-a", "2"⟩], [], []⟩,
     ResponseHeaderModifier := none }]

/-- C5 counterexample: delegation to the header-modifier check is keyed on
payload presence, not on the `Type` tag — a `RequestMirror`-typed filter
with a `RequestHeaderModifier` payload does trigger the check, refuting the
claim that filters of other kinds never trigger it. -/
theorem c5_counterexample :
    (∀ f ∈ c5Filters, f.FilterType ≠ HTTPRouteFilterType.requestHeaderModifier ∧
        f.FilterType ≠ HTTPRouteFilterType.responseHeaderModifier) ∧
    validateHTTPRouteFilters c5Filters [] (FieldPath.newPath "p") =
      [⟨((((FieldPath.newPath "p").index 0).child "requestHeaderModifier").child "add"),
        BadValue.header "x-a" "2", hmDetail⟩] := by
  constructor
  · decide
  · rfl

/-- C5 amended: the header-modifier check is delegated exactly for those
filters whose `RequestHeaderModifier` (respectively
`ResponseHeaderModifier`) payload is present, at the filter's own sub-path
`<index>.requestHeaderModifier` / `<index>.responseHeaderModifier`,
regardless of the `Type` tag; the remaining output is the single optional
mutual-exclusion error. -/
theorem c5_delegationKeyedOnPayload (filters : List HTTPRouteFilter)
    (matchList : List HTTPRouteMatch) (path : FieldPath) :
    validateHTTPRouteFilters filters matchList path =
      delegationErrors path 0 filters ++
      (if 0 < countFilterType filters HTTPRouteFilterType.requestRedirect ∧
          0 < countFilterType filters HTTPRouteFilterType.urlRewrite then
        [⟨(path.child "filters"), BadValue.filterType "RequestRedirect", mutexDetail⟩]
      else []) :=
  validateHTTPRouteFilters_eq filters matchList path

/-- Counterexample input for C6: one rule whose single match block
duplicates two distinct header names, so the map over lower-cased names has
two keys with count two. -/
def c6Spec : HTTPRouteSpec :=
  ⟨[], [{ Matches := [{ Headers := [⟨"x-a", "1"⟩, ⟨"x-b", "2"⟩, ⟨"x-a", "3"⟩, ⟨"x-b", "4"⟩],
                        QueryParams := [] }] }]⟩

/-- C6 counterexample: two runs of top-level validation on the same input,
differing only in the (unspecified) map-iteration order of
`validateHTTPHeaderMatches`, return the two duplicate-header errors in
different orders, refuting the claim that the error list is identical in
identical order across runs. -/
theorem c6_counterexample :
    ValidOrd id ∧ ValidOrd List.reverse ∧
    ValidateHTTPRouteSpec id (fun _ _ => []) c6Spec (FieldPath.newPath "spec") ≠
      ValidateHTTPRouteSpec List.reverse (fun _ _ => []) c6Spec (FieldPath.newPath "spec") :=
  ⟨validOrd_id, validOrd_reverse, by decide⟩

/-- C6 amended: two runs on the same unmodified input return the same
errors up to order — the results under any two legal map-iteration orders
are permutations of each other; only the relative order of the errors for
distinct duplicated header names within one match block may differ. -/
theorem c6_validationDeterministicUpToPermutation
    (ord1 ord2 : List String → List String)
    (h1 : ValidOrd ord1) (h2 : ValidOrd ord2)
    (f : List ParentRef → FieldPath → List ValidationError)
    (spec : HTTPRouteSpec) (path : FieldPath) :
    List.Perm (ValidateHTTPRouteSpec ord1 f spec path)
      (ValidateHTTPRouteSpec ord2 f spec path) := by
  rw [validateHTTPRouteSpec_eq, validateHTTPRouteSpec_eq]
  exact List.Perm.append (ruleListErrors_perm h1 h2 path spec.Rules 0) (List.Perm.refl _)

/-- Witness for the amended C6 at the identity and reversal orders. -/
theorem c6_validationDeterministicUpToPermutation_witness :
    ValidOrd id ∧ ValidOrd List.reverse ∧
    List.Perm (ValidateHTTPRouteSpec id (fun _ _ => []) c6Spec (FieldPath.newPath "spec"))
      (ValidateHTTPRouteSpec List.reverse (fun _ _ => []) c6Spec (FieldPath.newPath "spec")) :=
  ⟨validOrd_id, validOrd_reverse,
   c6_validationDeterministicUpToPermutation id List.reverse validOrd_id validOrd_reverse
     (fun _ _ => []) c6Spec (FieldPath.newPath "spec")⟩

/-- C7: appending a rule to the rule list leaves every previously reported
error in place (same errors, same earlier-rule paths, as a prefix) and adds
the new rule's own violations, followed as before by the collaborator's
errors. -/
theorem c7_monotoneUnderAppendedRule (ord : List String → List String)
    (f : List ParentRef → FieldPath → List ValidationError)
    (spec : HTTPRouteSpec) (path : FieldPath) (r : HTTPRouteRule) :
    ValidateHTTPRouteSpec ord f ⟨spec.ParentRefs, spec.Rules ++ [r]⟩ path =
      ruleListErrors ord path 0 spec.Rules ++ ruleErrors ord path spec.Rules.length r ++
        f spec.ParentRefs (path.child "spec") ∧
    (∀ e ∈ ValidateHTTPRouteSpec ord f spec path,
      e ∈ ValidateHTTPRouteSpec ord f ⟨spec.ParentRefs, spec.Rules ++ [r]⟩ path) ∧
    (∀ e ∈ ruleErrors ord path spec.Rules.length r,
      e ∈ ValidateHTTPRouteSpec ord f ⟨spec.ParentRefs, spec.Rules ++ [r]⟩ path) := by
  have hext : ValidateHTTPRouteSpec ord f ⟨spec.ParentRefs, spec.Rules ++ [r]⟩ path =
      ruleListErrors ord path 0 spec.Rules ++ ruleErrors ord path spec.Rules.length r ++
        f spec.ParentRefs (path.child "spec") := by
    rw [validateHTTPRouteSpec_eq]
    show ruleListErrors ord path 0 (spec.Rules ++ [r]) ++ _ = _
    rw [ruleListErrors_append, Nat.zero_add]
    simp [ruleListErrors, List.append_assoc]
  refine ⟨hext, ?_, ?_⟩
  · intro e he
    rw [validateHTTPRouteSpec_eq] at he
    rw [hext]
    rcases List.mem_append.mp he with he | he
    · exact List.mem_append.mpr (Or.inl (List.mem_append.mpr (Or.inl he)))
    · exact List.mem_append.mpr (Or.inr he)
  · intro e he
    rw [hext]
    exact List.mem_append.mpr (Or.inl (List.mem_append.mpr (Or.inr he)))

/-- C8: the collaborator is consulted exactly once per top-level
validation, after all rules, with the spec's full parent-reference list and
the spec-rooted path, and its errors form the unmodified tail of the
result: for every collaborator `f` the result is the rule errors followed
by exactly `f spec.ParentRefs (path.child "spec")`. -/
theorem c8_parentRefsCalledOnceAtEnd (ord : List String → List String)
    (f : List ParentRef → FieldPath → List ValidationError)
    (spec : HTTPRouteSpec) (path : FieldPath) :
    ValidateHTTPRouteSpec ord f spec path =
      ruleListErrors ord path 0 spec.Rules ++ f spec.ParentRefs (path.child "spec") :=
  validateHTTPRouteSpec_eq ord f spec path

/-- C10: `validateHTTPRouteFilters` never reads its match-block argument:
any two values of it give identical results. -/
theorem c10_filtersIgnoreMatches (filters : List HTTPRouteFilter)
    (path : FieldPath) (m1 m2 : List HTTPRouteMatch) :
    validateHTTPRouteFilters filters m1 path = validateHTTPRouteFilters filters m2 path := rfl

/-- C9: validation is total and purely accumulative — the embedding is a
total function, and the errors of every sub-check reach the single result
list: for any rule present in the spec, every error of its own filter
check, of each of its backend references' filter checks and of each of its
non-empty header-match checks is a member of the top-level result, as is
every collaborator error; no violation suppresses another. -/
theorem c9_allViolationsAccumulated (ord : List String → List String)
    (f : List ParentRef → FieldPath → List ValidationError)
    (spec : HTTPRouteSpec) (path : FieldPath) (i : Nat) (rule : HTTPRouteRule)
    (hrule : spec.Rules[i]? = some rule) :
    (∀ e ∈ validateHTTPRouteFilters rule.Filters rule.Matches ((path.child "rules").index i),
      e ∈ ValidateHTTPRouteSpec ord f spec path) ∧
    (∀ (j : Nat) (br : HTTPBackendRef), rule.BackendRefs[j]? = some br →
      ∀ e ∈ validateHTTPRouteFilters br.Filters rule.Matches
        ((((path.child "rules").index i).child "backendRefs").index j),
        e ∈ ValidateHTTPRouteSpec ord f spec path) ∧
    (∀ (j : Nat) (m : HTTPRouteMatch), rule.Matches[j]? = some m → 0 < m.Headers.length →
      ∀ e ∈ validateHTTPHeaderMatches ord m.Headers
        (((((path.child "rules").index i).child "matches").index j).child "headers"),
        e ∈ ValidateHTTPRouteSpec ord f spec path) ∧
    (∀ e ∈ f spec.ParentRefs (path.child "spec"), e ∈ ValidateHTTPRouteSpec ord f spec path) := by
  have hrl : ∀ e ∈ ruleErrors ord path i rule, e ∈ ValidateHTTPRouteSpec ord f spec path := by
    intro e he
    rw [validateHTTPRouteSpec_eq]
    refine List.mem_append.mpr (Or.inl ?_)
    refine mem_ruleListErrors ord path spec.Rules 0 i rule hrule e ?_
    simpa using he
  refine ⟨?_, ?_, ?_, ?_⟩
  · intro e he
    exact hrl e (List.mem_append.mpr (Or.inl (List.mem_append.mpr (Or.inl he))))
  · intro j br hbr e he
    refine hrl e (List.mem_append.mpr (Or.inl (List.mem_append.mpr (Or.inr ?_))))
    refine mem_backendRefErrors rule.Matches ((path.child "rules").index i)
      rule.BackendRefs 0 j br hbr e ?_
    simpa using he
  · intro j m hm hlen e he
    refine hrl e (List.mem_append.mpr (Or.inr ?_))
    refine mem_matchErrors ord ((path.child "rules").index i)
      rule.Matches 0 j m hm hlen e ?_
    simpa using he
  · intro e he
    rw [validateHTTPRouteSpec_eq]
    exact List.mem_append.mpr (Or.inr he)

/-- Concrete rule for the C9 witness: a redirect/rewrite conflict in its
own filters and in a backend reference's filters, plus a duplicated header
match. -/
def c9Rule : HTTPRouteRule :=
  { Matches := [{ Headers := [⟨"x-dup", "1"⟩, ⟨"x-dup", "2"⟩], QueryParams := [] }],
    Filters := [{ FilterType := HTTPRouteFilterType.requestRedirect },
                { FilterType := HTTPRouteFilterType.urlRewrite }],
    BackendRefs := [⟨[{ FilterType := HTTPRouteFilterType.requestRedirect },
                      { FilterType := HTTPRouteFilterType.urlRewrite }]⟩] }

def c9Spec : HTTPRouteSpec := ⟨[⟨"parent-a"⟩], [c9Rule]⟩

def c9Collaborator : List ParentRef → FieldPath → List ValidationError :=
  fun _ p => [⟨p, BadValue.str "parent-a", "parent conflict"⟩]

/-- Witness for C9 at a concrete rule present at index zero. -/
theorem c9_allViolationsAccumulated_witness :
    c9Spec.Rules[0]? = some c9Rule ∧
    ((∀ e ∈ validateHTTPRouteFilters c9Rule.Filters c9Rule.Matches
        (((FieldPath.newPath "spec").child "rules").index 0),
      e ∈ ValidateHTTPRouteSpec id c9Collaborator c9Spec (FieldPath.newPath "spec")) ∧
    (∀ (j : Nat) (br : HTTPBackendRef), c9Rule.BackendRefs[j]? = some br →
      ∀ e ∈ validateHTTPRouteFilters br.Filters c9Rule.Matches
        (((((FieldPath.newPath "spec").child "rules").index 0).child "backendRefs").index j),
        e ∈ ValidateHTTPRouteSpec id c9Collaborator c9Spec (FieldPath.newPath "spec")) ∧
    (∀ (j : Nat) (m : HTTPRouteMatch), c9Rule.Matches[j]? = some m → 0 < m.Headers.length →
      ∀ e ∈ validateHTTPHeaderMatches id m.Headers
        ((((((FieldPath.newPath "spec").child "rules").index 0).child "matches").index j).child "headers"),
        e ∈ ValidateHTTPRouteSpec id c9Collaborator c9Spec (FieldPath.newPath "spec")) ∧
    (∀ e ∈ c9Collaborator c9Spec.ParentRefs ((FieldPath.newPath "spec").child "spec"),
      e ∈ ValidateHTTPRouteSpec id c9Collaborator c9Spec (FieldPath.newPath "spec"))) :=
  ⟨rfl, c9_allViolationsAccumulated id c9Collaborator c9Spec (FieldPath.newPath "spec")
    0 c9Rule rfl⟩
